import Mathlib

/-!
Shallow embedding of the `branded` crate (src/branded/src/lib.rs) and its
indexed-vector example (src/branded/examples/array-index.rs).

Modelling conventions:
- The Rust brand lifetime parameter is modelled as an ordinary type parameter
  `β` (the scope identity). `PhantomData` is zero-sized and is modelled as a
  `Unit` field, mirroring the `_marker` field of the source.
- `Brand::new` takes a callback that is universally quantified over the brand
  lifetime (`for<..> FnOnce(Brand<..>) -> R`); the embedding takes a callback
  quantified over the identity type and instantiates it at a representative
  identity (`Unit`), since a value-level embedding has no notion of type
  freshness.
- `Vec<T>` is modelled as `List T`; `usize` as `Nat`.
- `get_unchecked` (undefined behaviour when out of bounds) is modelled as the
  partial access `List.get?`; the `none` result represents the
  undefined-behaviour case, and the infallibility theorem shows it is never
  produced for handles issued by `make_idx`.
- A Rust method taking `&self` (a shared borrow, with no interior mutability in
  any field of `FastVec`) cannot mutate the receiver, so it denotes a pure
  function; `FastVec.step` and `FastVec.run` make this receiver threading
  explicit for the frame property.
-/

namespace Branded

/-- Model of the Rust struct `Brand` from src/branded/src/lib.rs: a zero-size
marker parameterized by a compile-time scope identity. The invariant phantom
lifetime is the type parameter `β`; the stored `PhantomData` is `Unit`. -/
structure Brand (β : Type) where
  _marker : Unit

/-- Model of the derived `Default` impl on `Brand`
(`#[derive(Default, Copy, Clone)]`): field-wise default construction. -/
def Brand.default {β : Type} : Brand β :=
  ⟨⟨⟩⟩

/-- Model of the derived `Clone`/`Copy` impl on `Brand`: a bitwise copy,
i.e. field-wise reconstruction of the same zero-size value. -/
def Brand.clone {β : Type} (b : Brand β) : Brand β :=
  ⟨b._marker⟩

/-- Model of `Brand::new` from src/branded/src/lib.rs: constructs the brand
value `Self { _marker: PhantomData }` and passes it to the callback `f`,
returning whatever `f` returns. The callback is universally quantified over
the scope identity, as in the `WithBrand` bound. -/
def Brand.new {R : Type} (f : (β : Type) → Brand β → R) : R :=
  f Unit ⟨⟨⟩⟩

/-- Model of the example struct `FastVec` from
src/branded/examples/array-index.rs: the payload vector together with the
owning brand. -/
structure FastVec (β : Type) (T : Type) where
  inner : List T
  b : Brand β

/-- Model of the example struct `Idx`: a raw index bundled with a copy of the
owning brand (`#[derive(Clone, Copy)]`). -/
structure Idx (β : Type) where
  idx : Nat
  _b : Brand β

/-- Model of the derived `Clone`/`Copy` impl on `Idx`: field-wise copy. -/
def Idx.clone {β : Type} (h : Idx β) : Idx β :=
  ⟨h.idx, h._b.clone⟩

/-- Model of `FastVec::new`: brands the payload via `Brand::new` and hands the
branded structure to the caller closure (which, as in the source, returns
unit). -/
def FastVec.new {T : Type} (inner : List T)
    (f : (β : Type) → FastVec β T → Unit) : Unit :=
  Brand.new fun β b => f β ⟨inner, b⟩

/-- Model of `FastVec::make_idx`: one-time validation that `idx` is in bounds;
on success the index is bundled with a copy of the structure brand. -/
def FastVec.make_idx {β T : Type} (fv : FastVec β T) (idx : Nat) :
    Option (Idx β) :=
  if idx < fv.inner.length then some ⟨idx, fv.b⟩ else none

/-- Model of `FastVec::get`: unchecked access at the stored index.
`none` models the undefined-behaviour case of `get_unchecked`. -/
def FastVec.get {β T : Type} (fv : FastVec β T) (i : Idx β) : Option T :=
  fv.inner.get? i.idx

/-- A call to one of the two `&self` methods of `FastVec`, for stating the
frame property over call sequences. -/
inductive FVCall (β : Type) where
  | makeIdx (i : Nat)
  | getIdx (h : Idx β)

/-- Interpretation of a single `&self` method call: the method returns its
result and, taking only a shared borrow of a structure without interior
mutability, leaves the receiver as is. -/
def FastVec.step {β T : Type} (fv : FastVec β T) :
    FVCall β → FastVec β T × (Option (Idx β) ⊕ Option T)
  | FVCall.makeIdx i => (fv, Sum.inl (fv.make_idx i))
  | FVCall.getIdx h => (fv, Sum.inr (fv.get h))

/-- Interpretation of a sequence of `&self` method calls, threading the
receiver produced by each step into the next. -/
def FastVec.run {β T : Type} (fv : FastVec β T) : List (FVCall β) → FastVec β T
  | [] => fv
  | c :: rest => ((fv.step c).1).run rest

/-- Shared helper: inverting a successful `make_idx`. The handle is exactly the
validated index bundled with the structure brand, and the index is in range. -/
theorem make_idx_some_inv {β T : Type} {fv : FastVec β T} {i : Nat}
    {hdl : Idx β} (h : fv.make_idx i = some hdl) :
    hdl = ⟨i, fv.b⟩ ∧ i < fv.inner.length := by
  unfold FastVec.make_idx at h
  split at h
  · exact ⟨(Option.some.injEq _ _ ▸ h).symm, by assumption⟩
  · exact absurd h (by simp)

/-- C2: every handle obtained from a successful `make_idx` on a `FastVec`
stores an index strictly below the vector length, so the unchecked access in
`get` is in bounds and `get` never fails (never reaches the
undefined-behaviour case). -/
theorem get_infallible_on_issued_handles {β T : Type} (fv : FastVec β T)
    (i : Nat) (hdl : Idx β) (h : fv.make_idx i = some hdl) :
    hdl.idx < fv.inner.length ∧ ∃ t, fv.get hdl = some t := by
  obtain ⟨he, hlt⟩ := make_idx_some_inv h
  subst he
  exact ⟨hlt, ⟨fv.inner.get ⟨i, hlt⟩, List.get?_eq_get hlt⟩⟩

/-- Witness for C2 at a concrete input. -/
theorem get_infallible_on_issued_handles_witness :
    ((⟨[0, 1, 2], ⟨⟨⟩⟩⟩ : FastVec Unit Nat).make_idx 1 =
        some ⟨1, ⟨⟨⟩⟩⟩) ∧
      ((⟨1, ⟨⟨⟩⟩⟩ : Idx Unit).idx <
          (⟨[0, 1, 2], ⟨⟨⟩⟩⟩ : FastVec Unit Nat).inner.length ∧
        ∃ t, (⟨[0, 1, 2], ⟨⟨⟩⟩⟩ : FastVec Unit Nat).get ⟨1, ⟨⟨⟩⟩⟩ = some t) :=
  ⟨rfl, get_infallible_on_issued_handles ⟨[0, 1, 2], ⟨⟨⟩⟩⟩ 1 ⟨1, ⟨⟨⟩⟩⟩ rfl⟩

/-- C3: for every payload `v` and index `i < v.length`, `make_idx i` on a
`FastVec` holding `v` succeeds, and `get` on the issued handle returns exactly
element `i` of `v` (round-trip of validate then consume equals raw access). -/
theorem validate_consume_roundtrip {T : Type} (β : Type) (b : Brand β)
    (v : List T) (i : Nat) (h : i < v.length) :
    ∃ hdl, (FastVec.mk v b).make_idx i = some hdl ∧
      (FastVec.mk v b).get hdl = some (v.get ⟨i, h⟩) := by
  refine ⟨⟨i, b⟩, ?_, ?_⟩
  · unfold FastVec.make_idx
    simp [h]
  · exact List.get?_eq_get h

/-- Witness for C3 at a concrete input. -/
theorem validate_consume_roundtrip_witness :
    (0 < ([10, 20] : List Nat).length) ∧
      ∃ hdl, (FastVec.mk ([10, 20] : List Nat)
          (⟨⟨⟩⟩ : Brand Unit)).make_idx 0 = some hdl ∧
        (FastVec.mk ([10, 20] : List Nat) (⟨⟨⟩⟩ : Brand Unit)).get hdl =
          some (([10, 20] : List Nat).get ⟨0, by decide⟩) :=
  ⟨by decide, validate_consume_roundtrip Unit ⟨⟨⟩⟩ [10, 20] 0 (by decide)⟩

/-- C4: for every `FastVec` and every input at or above the length,
`make_idx` fails by returning `none` (an ordinary recoverable result to the
immediate caller; the function is total, so no abort). -/
theorem make_idx_out_of_range {β T : Type} (fv : FastVec β T) (i : Nat)
    (h : fv.inner.length ≤ i) : fv.make_idx i = none := by
  unfold FastVec.make_idx
  simp [Nat.not_lt.mpr h]

/-- Witness for C4 at a concrete input. -/
theorem make_idx_out_of_range_witness :
    ((⟨[0, 1], ⟨⟨⟩⟩⟩ : FastVec Unit Nat).inner.length ≤ 5) ∧
      (⟨[0, 1], ⟨⟨⟩⟩⟩ : FastVec Unit Nat).make_idx 5 = none :=
  ⟨by decide, make_idx_out_of_range ⟨[0, 1], ⟨⟨⟩⟩⟩ 5 (by decide)⟩

/-- C5: `Brand.new f` returns exactly what the callback `f` returns when
applied to the freshly constructed brand value, unchanged; `Brand.new` is a
total function that performs no computation of its own. -/
theorem brand_new_passthrough {R : Type} (f : (β : Type) → Brand β → R) :
    Brand.new f = f Unit ⟨⟨⟩⟩ :=
  rfl

/-- C6: validating the same in-range input repeatedly is idempotent — any two
handles issued by `make_idx` for the same input on the same `FastVec` are
equal, are both usable with that `FastVec`, and resolve via `get` to the same
underlying element. -/
theorem make_idx_idempotent {β T : Type} (fv : FastVec β T) (i : Nat)
    (h₁ h₂ : Idx β) (e₁ : fv.make_idx i = some h₁)
    (e₂ : fv.make_idx i = some h₂) :
    h₁ = h₂ ∧ fv.get h₁ = fv.get h₂ ∧ ∃ t, fv.get h₁ = some t := by
  obtain ⟨he₁, hlt⟩ := make_idx_some_inv e₁
  obtain ⟨he₂, -⟩ := make_idx_some_inv e₂
  subst he₁
  subst he₂
  exact ⟨rfl, rfl, ⟨fv.inner.get ⟨i, hlt⟩, List.get?_eq_get hlt⟩⟩

/-- Witness for C6 at a concrete input. -/
theorem make_idx_idempotent_witness :
    ((⟨[7], ⟨⟨⟩⟩⟩ : FastVec Unit Nat).make_idx 0 = some ⟨0, ⟨⟨⟩⟩⟩) ∧
      ((⟨0, ⟨⟨⟩⟩⟩ : Idx Unit) = ⟨0, ⟨⟨⟩⟩⟩ ∧
        (⟨[7], ⟨⟨⟩⟩⟩ : FastVec Unit Nat).get ⟨0, ⟨⟨⟩⟩⟩ =
          (⟨[7], ⟨⟨⟩⟩⟩ : FastVec Unit Nat).get ⟨0, ⟨⟨⟩⟩⟩ ∧
        ∃ t, (⟨[7], ⟨⟨⟩⟩⟩ : FastVec Unit Nat).get ⟨0, ⟨⟨⟩⟩⟩ = some t) :=
  ⟨rfl, make_idx_idempotent ⟨[7], ⟨⟨⟩⟩⟩ 0 ⟨0, ⟨⟨⟩⟩⟩ ⟨0, ⟨⟨⟩⟩⟩ rfl rfl⟩

/-- C7: copying (the derived `Clone`/`Copy`) is the identity on values — a
copied `Brand` equals the original, a copied `Idx` handle equals the original,
and `get` resolves a copied handle to the same element as the original. The
copy has the same scope identity type, so it is usable wherever the original
is. -/
theorem copy_preserves_identity {β T : Type} (b : Brand β) (hdl : Idx β)
    (fv : FastVec β T) :
    b.clone = b ∧ hdl.clone = hdl ∧ fv.get hdl.clone = fv.get hdl :=
  ⟨rfl, rfl, rfl⟩

/-- C8 counterexample: the derived `Default` impl is a public construction
path for `Brand` other than `Brand::new`. Evaluated at the concrete scope
identity `Unit`, `Brand.default` produces a brand value directly — no
`Brand.new` callback is involved — and the value it produces coincides with
the marker `Brand.new` itself hands to its callback. -/
theorem brand_default_public_construction :
    (Brand.default : Brand Unit) = ⟨⟨⟩⟩ ∧
      Brand.new (fun _ _ => (⟨⟨⟩⟩ : Brand Unit)) = Brand.default :=
  ⟨rfl, rfl⟩

/-- C8 amended: a `Brand` is handed to code through the `Brand.new` callback,
but it is also publicly constructible via the derived `Default` impl at any
nameable scope identity; since `Brand` is a zero-size marker with no runtime
state, every brand value at a given scope identity equals the
default-constructed one, so default construction creates no new identity. -/
theorem brand_default_equals_issued {β : Type} (b : Brand β) :
    b = Brand.default :=
  rfl

/-- C9: on the structure holding `[0, 1, 2, 3]`, `make_idx 1` succeeds and its
handle resolves to `1`; `make_idx 3` succeeds and resolves to `3`;
`make_idx 4` fails; and consuming the `make_idx 1` handle on each of `k`
iterations always yields `1`. -/
theorem example_scenario (β : Type) (b : Brand β) :
    (FastVec.mk [0, 1, 2, 3] b).make_idx 1 = some ⟨1, b⟩ ∧
      (FastVec.mk ([0, 1, 2, 3] : List Nat) b).get ⟨1, b⟩ = some 1 ∧
      (FastVec.mk [0, 1, 2, 3] b).make_idx 3 = some ⟨3, b⟩ ∧
      (FastVec.mk ([0, 1, 2, 3] : List Nat) b).get ⟨3, b⟩ = some 3 ∧
      (FastVec.mk ([0, 1, 2, 3] : List Nat) b).make_idx 4 = none ∧
      ∀ k : Nat,
        ((List.range k).map fun _ =>
            (FastVec.mk ([0, 1, 2, 3] : List Nat) b).get ⟨1, b⟩) =
          List.replicate k (some 1) := by
  refine ⟨rfl, rfl, rfl, rfl, rfl, ?_⟩
  intro k
  simp [FastVec.get, List.map_const']

/-- C10: neither `make_idx` nor `get` modifies the `FastVec` — after
interpreting any sequence of calls to these `&self` methods, the receiver, its
contents, its length and its stored brand are exactly those at creation. -/
theorem fastvec_frame_no_mutation {β T : Type} (fv : FastVec β T)
    (cs : List (FVCall β)) :
    fv.run cs = fv ∧ (fv.run cs).inner = fv.inner ∧
      (fv.run cs).inner.length = fv.inner.length ∧ (fv.run cs).b = fv.b := by
  have h : fv.run cs = fv := by
    induction cs with
    | nil => rfl
    | cons c rest ih => cases c <;> simpa [FastVec.run, FastVec.step] using ih
  exact ⟨h, by rw [h], by rw [h], by rw [h]⟩

end Branded
